import Mathlib

/-!
Verification of the wirefilter extensibility core against its specification.

The development shallowly embeds the code of `src/engine/src/functions.rs`,
`src/engine/src/rhs_types/ulong.rs`, `src/engine/src/rhs_types/regex/imp_pool.rs`
and `src/engine/src/rhs_types/regex/imp_real.rs`.  Types that those files
consume from modules of the same repository that are not part of the provided
sources (`types.rs`, `lex.rs`, `filter.rs`) are modelled from the
specification, and are marked as such in their doc comments.
-/

/-! ## Value types (modelled) -/

/-- Modelled from the spec: `Type` from `types.rs` (not under `src/`) is a
"closed enumeration of value kinds (primitive scalars, array-of-T, map-of-T)";
equality is structural.  Named `Typ` because `Type` is a Lean keyword. -/
inductive Typ where
  | Bool : Typ
  | Bytes : Typ
  | Int : Typ
  | Ulong : Typ
  | Ip : Typ
  | Array : Typ → Typ
  | Map : Typ → Typ
deriving DecidableEq, Repr

/-- Modelled from the spec: `ExpectedType` from `types.rs` (not under `src/`)
"is either any array, any map, or exactly this concrete Type".
The `Type(Type)` variant of the source is named `Ty` here. -/
inductive ExpectedType where
  | Array : ExpectedType
  | Map : ExpectedType
  | Ty : Typ → ExpectedType
deriving DecidableEq, Repr

/-- Modelled from the spec: `ExpectedTypeList` from `types.rs` (not under
`src/`) is "a set (insertion order irrelevant, duplicates suppressed)";
the error lists expectations "in insertion order, not sorted".
Represented as a duplicate-free list in insertion order. -/
abbrev ExpectedTypeList := List ExpectedType

/-- The `ExpectedTypeList::insert`: appends the element unless already present,
preserving insertion order and suppressing duplicates. -/
def ExpectedTypeList.insert (l : ExpectedTypeList) (e : ExpectedType) : ExpectedTypeList :=
  if e ∈ l then l else l ++ [e]

/-- Modelled from the spec: `TypeMismatchError` from `types.rs` (not under
`src/`) carries "the full accepted-type list for diagnostics" plus the actual
type. -/
structure TypeMismatchError where
  expected : ExpectedTypeList
  actual : Typ
deriving DecidableEq, Repr

/-- Modelled from the spec: the subset of `RhsValue` (from `types.rs`, not
under `src/`) needed to state the contracts: "a lexed literal's RhsValue plus
its Type".  Scalar literal values with their types. -/
inductive RhsValue where
  | Bool : Bool → RhsValue
  | Bytes : List Nat → RhsValue
  | Int : Int → RhsValue
  | Ulong : Nat → RhsValue
deriving DecidableEq, Repr

/-- The `GetType for RhsValue` (modelled): the literal's type. -/
def RhsValue.get_type : RhsValue → Typ
  | .Bool _ => .Bool
  | .Bytes _ => .Bytes
  | .Int _ => .Int
  | .Ulong _ => .Ulong

/-- Modelled from the spec: the subset of `LhsValue` (from `types.rs`, not
under `src/`) needed for default values and runtime arguments. -/
inductive LhsValue where
  | Bool : Bool → LhsValue
  | Bytes : List Nat → LhsValue
  | Int : Int → LhsValue
  | Ulong : Nat → LhsValue
deriving DecidableEq, Repr

/-- The `GetType for LhsValue` (modelled). -/
def LhsValue.get_type : LhsValue → Typ
  | .Bool _ => .Bool
  | .Bytes _ => .Bytes
  | .Int _ => .Int
  | .Ulong _ => .Ulong

/-! ## Contract model (`functions.rs`) -/

/-- The `FunctionArgKind` (functions.rs): what kind of argument a function
expects. -/
inductive FunctionArgKind where
  | Literal : FunctionArgKind
  | Field : FunctionArgKind
deriving DecidableEq, Repr

/-- The `FunctionArgKindMismatchError` (functions.rs). -/
structure FunctionArgKindMismatchError where
  expected : FunctionArgKind
  actual : FunctionArgKind
deriving DecidableEq, Repr

/-- The `FunctionArgInvalidConstantError` (functions.rs): wraps a message. -/
structure FunctionArgInvalidConstantError where
  msg : String
deriving DecidableEq, Repr

/-- The `FunctionParamError` (functions.rs). -/
inductive FunctionParamError where
  | TypeMismatch : TypeMismatchError → FunctionParamError
  | KindMismatch : FunctionArgKindMismatchError → FunctionParamError
  | InvalidConstant : FunctionArgInvalidConstantError → FunctionParamError
deriving DecidableEq, Repr

/-- The `FunctionParam` (functions.rs): a resolved call argument, either a
constant literal or a variable of a declared type. -/
inductive FunctionParam where
  | Constant : RhsValue → FunctionParam
  | Variable : Typ → FunctionParam
deriving DecidableEq, Repr

/-- The `From<&FunctionParam> for FunctionArgKind` (functions.rs). -/
def FunctionParam.arg_kind : FunctionParam → FunctionArgKind
  | .Constant _ => .Literal
  | .Variable _ => .Field

/-- The `GetType for FunctionParam` (functions.rs). -/
def FunctionParam.get_type : FunctionParam → Typ
  | .Constant value => value.get_type
  | .Variable ty => ty

/-- The `FunctionParam::expect_arg_kind` (functions.rs). -/
def FunctionParam.expect_arg_kind (p : FunctionParam) (expected_arg_kind : FunctionArgKind) :
    Except FunctionParamError Unit :=
  let kind := p.arg_kind
  if kind = expected_arg_kind then
    .ok ()
  else
    .error (.KindMismatch ⟨expected_arg_kind, kind⟩)

/-- The loop body of `FunctionParam::expect_val_type` (functions.rs):
`ty` is the parameter's type, `types` the `ExpectedTypeList` accumulated so
far, and the last argument the candidates still to be tried. -/
def expectValTypeGo (ty : Typ) (types : ExpectedTypeList) :
    List ExpectedType → Except FunctionParamError Unit
  | [] => .error (.TypeMismatch ⟨types, ty⟩)
  | expected_type :: rest =>
    match expected_type, ty with
    | .Array, .Array _ => .ok ()
    | .Map, .Map _ => .ok ()
    | .Ty val_type, _ =>
      if ty = val_type then .ok ()
      else expectValTypeGo ty (types.insert expected_type) rest
    | _, _ => expectValTypeGo ty (types.insert expected_type) rest

/-- The `FunctionParam::expect_val_type` (functions.rs): iterates the candidate
expected types, succeeding on first structural match, and on exhaustion
fails with a `TypeMismatch` listing every distinct candidate tried. -/
def FunctionParam.expect_val_type (p : FunctionParam) (expected_types : List ExpectedType) :
    Except FunctionParamError Unit :=
  expectValTypeGo p.get_type [] expected_types

/-- The `FunctionParam::expect_const_value` (functions.rs): requires a constant,
converts it via `conv` (the `TryFrom<&RhsValue>` instance), then runs the
caller-supplied validation closure `op`, wrapping its message into an
invalid-constant error. -/
def FunctionParam.expect_const_value {U : Type} (p : FunctionParam)
    (conv : RhsValue → Except TypeMismatchError U) (op : U → Except String Unit) :
    Except FunctionParamError Unit :=
  match p with
  | .Constant value =>
    ((conv value).mapError FunctionParamError.TypeMismatch).bind fun u =>
      (op u).mapError fun msg => .InvalidConstant ⟨msg⟩
  | .Variable _ => .error (.KindMismatch ⟨.Literal, .Field⟩)

/-! ## Type-erased context (`functions.rs`) -/

/-- The `FunctionDefinitionContext` (functions.rs), specialised to the concrete
inner type `T` it was created from.  `strong` is the strong count of the
reference-counted cell (`Arc`) holding the inner value: `Arc::new` yields a
cell with strong count 1.  No operation modelled here creates weak
references. -/
structure FunctionDefinitionContext (T : Type) where
  strong : Nat
  value : T
deriving DecidableEq, Repr

/-- The `FunctionDefinitionContext::new` (functions.rs): wraps the value in a
fresh `Arc` (strong count 1) and captures the clone/debug callbacks. -/
def FunctionDefinitionContext.new {T : Type} (t : T) : FunctionDefinitionContext T :=
  ⟨1, t⟩

/-- The `Clone for FunctionDefinitionContext` (functions.rs): the captured
`clone_cb` is `clone_any::<T>`, which builds `Arc::new(inner.clone())` — a
fresh cell with strong count 1; the original cell is untouched. -/
def FunctionDefinitionContext.clone {T : Type} (c : FunctionDefinitionContext T) :
    FunctionDefinitionContext T :=
  ⟨1, c.value⟩

/-- The `FunctionDefinitionContext::try_unwrap::<T>` (functions.rs) for the
matching type `T` (so the inner `downcast` succeeds): `Arc::try_unwrap`
reclaims the value exactly when the strong count is 1; `none` models reaching
the `unreachable!()` branch. -/
def FunctionDefinitionContext.try_unwrap {T : Type} (c : FunctionDefinitionContext T) :
    Option T :=
  if c.strong = 1 then some c.value else none

/-- The contexts obtainable from `FunctionDefinitionContext::new(t)` by a
finite number of `clone` operations. -/
inductive ContextDerived {T : Type} (t : T) : FunctionDefinitionContext T → Prop where
  | new : ContextDerived t (FunctionDefinitionContext.new t)
  | clone {c : FunctionDefinitionContext T} :
      ContextDerived t c → ContextDerived t c.clone

/-! ## Exact-size chain (`functions.rs`) -/

/-- The `ExactSizeChain` (functions.rs): concatenation of two exact-size
iterators, tracking the two remaining lengths.  The underlying `Chain`
iterator state is the list of elements still to be produced. -/
structure ExactSizeChain (α : Type) where
  chain : List α
  len_a : Nat
  len_b : Nat
deriving DecidableEq, Repr

/-- The `ExactSizeChain::new` (functions.rs). -/
def ExactSizeChain.new {α : Type} (a b : List α) : ExactSizeChain α :=
  ⟨a ++ b, a.length, b.length⟩

/-- The `Iterator::next for ExactSizeChain` (functions.rs): draws from the
chain, decrementing `len_a` while it is positive, else `len_b`. -/
def ExactSizeChain.next {α : Type} : ExactSizeChain α → Option (α × ExactSizeChain α)
  | ⟨[], _, _⟩ => none
  | ⟨elem :: rest, la, lb⟩ =>
    if la > 0 then some (elem, ⟨rest, la - 1, lb⟩)
    else if lb > 0 then some (elem, ⟨rest, la, lb - 1⟩)
    else some (elem, ⟨rest, la, lb⟩)

/-- The `ExactSizeIterator::len for ExactSizeChain` (functions.rs). -/
def ExactSizeChain.len {α : Type} (c : ExactSizeChain α) : Nat :=
  c.len_a + c.len_b

/-- The full sequence of elements produced by repeatedly calling `next`
(see `ExactSizeChain.drain_next` for the correspondence). -/
def ExactSizeChain.drain {α : Type} : ExactSizeChain α → List α
  | ⟨[], _, _⟩ => []
  | ⟨elem :: rest, la, lb⟩ =>
    if la > 0 then elem :: ExactSizeChain.drain ⟨rest, la - 1, lb⟩
    else if lb > 0 then elem :: ExactSizeChain.drain ⟨rest, la, lb - 1⟩
    else elem :: ExactSizeChain.drain ⟨rest, la, lb⟩
termination_by c => c.chain.length
decreasing_by all_goals simp

/-! ## Simple function definition (`functions.rs`) -/

/-- The `CompiledValueResult` (filter.rs, not under `src/`): modelled from the
spec as the item type of the argument iterator a compiled closure receives,
`Result<LhsValue, Type>`. -/
abbrev CompiledValueResult := Except Typ LhsValue

/-- The `SimpleFunctionParam` (functions.rs): a mandatory argument spec. -/
structure SimpleFunctionParam where
  arg_kind : FunctionArgKind
  val_type : Typ
deriving DecidableEq, Repr

/-- The `SimpleFunctionOptParam` (functions.rs): an optional argument spec with
its default value. -/
structure SimpleFunctionOptParam where
  arg_kind : FunctionArgKind
  default_value : LhsValue
deriving DecidableEq, Repr

/-- The `SimpleFunctionDefinition` (functions.rs) minus the raw function
pointer: the pointer itself is opaque, so the embedding exposes instead the
argument sequence the compiled closure hands to it (see
`SimpleFunctionDefinition.compiledCall`). -/
structure SimpleFunctionDefinition where
  params : List SimpleFunctionParam
  opt_params : List SimpleFunctionOptParam
  return_type : Typ
deriving DecidableEq, Repr

/-- The `opt_args` vector built at compile time by
`SimpleFunctionDefinition::compile` (functions.rs): the default values of
the optional parameters *not* supplied explicitly
(`&self.opt_params[(params_count - self.params.len())..]`), each wrapped in
`Ok` and cloned once. -/
def SimpleFunctionDefinition.compiledOptArgs (f : SimpleFunctionDefinition)
    (params_count : Nat) : List CompiledValueResult :=
  (f.opt_params.drop (params_count - f.params.length)).map fun opt_param =>
    .ok opt_param.default_value

/-- The behaviour of the closure returned by
`SimpleFunctionDefinition::compile` (functions.rs) when invoked on the
explicit arguments `args`: the result is the argument sequence observed by
the raw function pointer, or `none` when the `assert_eq!(params_count,
args.len())` arity assertion fails (a panic).  When no defaults are needed
the closure passes `args` through directly; otherwise it passes
`ExactSizeChain::new(args, opt_args.iter().cloned())`. -/
def SimpleFunctionDefinition.compiledCall (f : SimpleFunctionDefinition)
    (params_count : Nat) (args : List CompiledValueResult) :
    Option (List CompiledValueResult) :=
  if (f.compiledOptArgs params_count).isEmpty then
    if params_count = args.length then some args else none
  else
    if params_count = args.length then
      some (ExactSizeChain.new args (f.compiledOptArgs params_count)).drain
    else none

/-! ## Regex interning pool (`imp_pool.rs`)

The pool is modelled for one fixed pattern string (all pool operations key on
the exact pattern, so distinct patterns evolve independently).  Every compiled
object ever created for the pattern has an index; `strong i` is the strong
count of object `i`'s `Arc` (0 once deallocated).  `pooled` is the pool's
`HashSet` entry for the pattern: the index of the compiled object the pool
holds a strong reference to, if any (a `HashSet` keyed by the pattern holds at
most one entry).  No operation of `imp_pool.rs` creates weak references, so
`Arc::weak_count` is identically 0 in this model. -/

structure PoolState where
  strong : Nat → Nat
  count : Nat
  pooled : Option Nat
  compilations : Nat

/-- The process start state: empty pool, no compiled objects. -/
def PoolState.init : PoolState := ⟨fun _ => 0, 0, none, 0⟩

/-- Point update of a strong-count map. -/
def updateAt (f : Nat → Nat) (i v : Nat) : Nat → Nat :=
  fun k => if k = i then v else f k

/-- Dropping one strong reference to object `i`. -/
def decAt (f : Nat → Nat) (i : Nat) : Nat → Nat :=
  updateAt f i (f i - 1)

/-- The client operations on the pool: `Regex::from_str` for the pattern,
`Clone` of a handle to compiled object `i`, and `Drop` of a handle to
compiled object `i`. -/
inductive PoolOp where
  | fromStr : PoolOp
  | cloneHandle : Nat → PoolOp
  | dropHandle : Nat → PoolOp
deriving DecidableEq, Repr

/-- The number of strong references to object `i` held outside the pool. -/
def PoolState.extRefs (s : PoolState) (i : Nat) : Nat :=
  s.strong i - (if s.pooled = some i then 1 else 0)

/-- One pool operation, as implemented by `imp_pool.rs`:

* `fromStr` (`impl FromStr for Regex`): under the pool lock, if the pattern
  is present return a clone of the entry (strong + 1, no compilation);
  otherwise compile (`unicode(false)`), wrap in a fresh `Arc` and insert a
  clone into the pool — the new object has strong count 2 (caller + pool).
* `cloneHandle i` (`derive Clone`): `Arc` clone, strong + 1.
* `dropHandle i` (`impl Drop for Regex`): if the strong count is exactly 2
  (and the weak count 0, which always holds here), take the pool's entry for
  the pattern out of the pool, drop it after releasing the lock, and then
  drop the handle's own reference; otherwise just drop the handle's own
  reference. -/
def PoolState.step (s : PoolState) : PoolOp → PoolState
  | .fromStr =>
    match s.pooled with
    | some j => { s with strong := updateAt s.strong j (s.strong j + 1) }
    | none =>
      { strong := updateAt s.strong s.count 2
        count := s.count + 1
        pooled := some s.count
        compilations := s.compilations + 1 }
  | .cloneHandle i => { s with strong := updateAt s.strong i (s.strong i + 1) }
  | .dropHandle i =>
    if s.strong i = 2 then
      match s.pooled with
      | some j =>
        { s with strong := decAt (decAt s.strong j) i, pooled := none }
      | none => { s with strong := decAt s.strong i }
    else { s with strong := decAt s.strong i }

/-- Whether an operation is legal in state `s`: cloning or dropping a handle
requires such an external handle to exist. -/
def PoolState.validOp (s : PoolState) : PoolOp → Bool
  | .fromStr => true
  | .cloneHandle i => 1 ≤ s.extRefs i
  | .dropHandle i => 1 ≤ s.extRefs i

/-- Running a sequence of operations. -/
def PoolState.run (s : PoolState) : List PoolOp → PoolState
  | [] => s
  | op :: ops => (s.step op).run ops

/-- Every operation of the sequence is legal in the state it runs in. -/
def PoolState.validTrace (s : PoolState) : List PoolOp → Bool
  | [] => true
  | op :: ops => s.validOp op && (s.step op).validTrace ops

/-- The pool invariant: every live compiled object is the pool's entry and
has strong count at least 2 (pool + at least one external handle) and was
actually allocated; and the pool's entry, when present, is an allocated
object with strong count at least 2. -/
def PoolState.Inv (s : PoolState) : Prop :=
  (∀ i, 0 < s.strong i → s.pooled = some i ∧ 2 ≤ s.strong i ∧ i < s.count) ∧
  (∀ j, s.pooled = some j → j < s.count ∧ 2 ≤ s.strong j)

/-! ## Regex value (`imp_real.rs`) -/

/-- The `RegexFormat` (modelled from the spec: literal vs. wildcard-derived,
defined outside the provided sources). -/
inductive RegexFormat where
  | Literal : RegexFormat
  | Wildcard : RegexFormat
deriving DecidableEq, Repr

/-- Modelled from the spec: `regex::Error` of the external regex crate
(re-exported by `imp_real.rs` as `RegexError`); `CompiledTooBig` carries the
configured size limit. -/
inductive RegexCrateError where
  | Syntax : String → RegexCrateError
  | CompiledTooBig : Nat → RegexCrateError
deriving DecidableEq, Repr

/-- The `Error` (imp_real.rs): failure to construct a `Regex`. -/
inductive RegexModuleError where
  | UnsupportedPattern : String → RegexModuleError
  | SimpleRegexErr : RegexCrateError → RegexModuleError
deriving DecidableEq, Repr

/-- Modelled from the spec: `FilterParser` (not under `src/`), the
parser/configuration handle exposing the optional custom matcher builder and
the regex compiled-size / automaton-size limits.  A matcher is represented by
the pattern string it was built from; the builder may decline by returning
`none`. -/
structure FilterParser where
  gen_regex_builder : Option (String → Option String)
  regex_compiled_size_limit : Nat
  regex_dfa_size_limit : Nat

/-- Modelled from the spec: `regex::bytes::RegexBuilder::build` of the
external regex crate, as configured by `SimpleRegex::new` (unicode mode
disabled, the given compiled-size limit).  `compiledSize` abstracts the size
of a pattern's compiled representation; exceeding the configured limit is
the distinct reportable failure `CompiledTooBig` carrying that exact limit.
The compiled regex is represented by its pattern string. -/
def regexBuilderBuild (compiledSize : String → Nat) (pattern : String) (size_limit : Nat) :
    Except RegexCrateError String :=
  if size_limit < compiledSize pattern then .error (.CompiledTooBig size_limit)
  else .ok pattern

/-- The `SimpleRegex` (imp_real.rs): a compiled pattern plus its format. -/
structure SimpleRegex where
  compiled_regex : String
  format : RegexFormat
deriving DecidableEq, Repr

/-- The `SimpleRegex::new` (imp_real.rs): builds the pattern with unicode
disabled under `parser.regex_compiled_size_limit` and
`parser.regex_dfa_size_limit`, mapping the compiled result into a
`SimpleRegex`. -/
def SimpleRegex.new (compiledSize : String → Nat) (pattern : String) (format : RegexFormat)
    (parser : FilterParser) : Except RegexCrateError SimpleRegex :=
  (regexBuilderBuild compiledSize pattern parser.regex_compiled_size_limit).map
    fun r => ⟨r, format⟩

/-- The `Regex` (imp_real.rs): custom matcher (`Gen`) or default (`Simple`). -/
inductive Regex where
  | Gen : String → RegexFormat → Regex
  | Simple : SimpleRegex → Regex
deriving DecidableEq, Repr

/-- The `Regex::new` (imp_real.rs): without a registered custom matcher builder,
compile a `SimpleRegex`; with one, hand the pattern to the builder, which may
decline (`UnsupportedPattern`). -/
def Regex.new (compiledSize : String → Nat) (pattern : String) (format : RegexFormat)
    (parser : FilterParser) : Except RegexModuleError Regex :=
  match parser.gen_regex_builder with
  | none =>
    ((SimpleRegex.new compiledSize pattern format parser).map Regex.Simple).mapError
      RegexModuleError.SimpleRegexErr
  | some re_builder =>
    match re_builder pattern with
    | none => .error (.UnsupportedPattern pattern)
    | some matcher => .ok (.Gen matcher format)

/-! ## Numeric range lexer (`ulong.rs`) -/

/-- Rust `core::num::IntErrorKind` of `ParseIntError`. -/
inductive IntErrorKind where
  | Empty : IntErrorKind
  | InvalidDigit : IntErrorKind
  | PosOverflow : IntErrorKind
  | NegOverflow : IntErrorKind
deriving DecidableEq, Repr

/-- The variants of `LexErrorKind` (lex.rs, not under `src/`) produced by the
numeric range lexer and its helpers; modelled from their use in `ulong.rs`. -/
inductive LexErrorKind where
  | ExpectedName : String → LexErrorKind
  | ExpectedLiteral : List Char → LexErrorKind
  | ParseInt : IntErrorKind → Nat → LexErrorKind
  | IncompatibleRangeBounds : LexErrorKind
deriving DecidableEq, Repr

/-- The `LexResult<'i, T>` (lex.rs): the parsed value with the unconsumed
remainder, or an error kind with the input span it refers to. -/
abbrev LexResult (α : Type) := Except (LexErrorKind × List Char) (α × List Char)

/-- Modelled from the spec: `expect` (lex.rs, not under `src/`): consumes the
given literal prefix of the input, failing without consuming otherwise. -/
def expectLex (input s : List Char) : Except (LexErrorKind × List Char) (List Char) :=
  if s.isPrefixOf input then .ok (input.drop s.length)
  else .error (.ExpectedLiteral s, input)

/-- Modelled from the spec: `take_while` (lex.rs, not under `src/`): takes
the longest prefix of characters satisfying `f`; taking zero characters is an
error naming the expected character class. -/
def takeWhileLex (input : List Char) (name : String) (f : Char → Bool) :
    LexResult (List Char) :=
  let taken := input.takeWhile f
  if taken.isEmpty then .error (.ExpectedName name, input)
  else .ok (taken, input.dropWhile f)

/-- Modelled from the spec: `span` (lex.rs, not under `src/`): the prefix of
`input` consumed before `rest` begins. -/
def spanLex (input rest : List Char) : List Char :=
  input.take (input.length - rest.length)

/-- Rust `char::to_digit`: the character's value as a digit in the
given radix (`0`–`9`, then letters from 10), if below the radix. -/
def charToDigit (c : Char) (radix : Nat) : Option Nat :=
  let v := c.toNat
  let d : Option Nat :=
    if 48 ≤ v ∧ v ≤ 57 then some (v - 48)
    else if 97 ≤ v ∧ v ≤ 122 then some (v - 97 + 10)
    else if 65 ≤ v ∧ v ≤ 90 then some (v - 65 + 10)
    else none
  match d with
  | some d => if d < radix then some d else none
  | none => none

/-- The digit-accumulation loop of `u64::from_str_radix` (Rust std) in the
non-negative case: each step is `checked_mul` by the radix then `checked_add`
of the digit, overflow beyond `u64` reported as `PosOverflow`. -/
def parseDigitsPos (radix : Nat) : Nat → List Char → Except IntErrorKind Nat
  | acc, [] => .ok acc
  | acc, c :: cs =>
    match charToDigit c radix with
    | none => .error .InvalidDigit
    | some d =>
      if acc * radix + d < 2 ^ 64 then parseDigitsPos radix (acc * radix + d) cs
      else .error .PosOverflow

/-- Rust `u64::from_str_radix` for the unsigned 64-bit type: the empty string is `Empty`; a lone
sign is `InvalidDigit`; a leading `+` is skipped; a leading `-` is a sign
only for signed types, so for `u64` it is left in the digit run and fails
there as an invalid digit. -/
def u64FromStrRadix (s : List Char) (radix : Nat) : Except IntErrorKind Nat :=
  match s with
  | [] => .error .Empty
  | c :: rest =>
    if (c = '+' ∨ c = '-') ∧ rest = [] then .error .InvalidDigit
    else if c = '+' then parseDigitsPos radix 0 rest
    else parseDigitsPos radix 0 (c :: rest)

/-- The `lex_digits` (ulong.rs): lex any supported digits (up to radix 16) for
better error locations. -/
def lex_digits (input : List Char) : LexResult (List Char) :=
  takeWhileLex input "digit" fun c => (charToDigit c 16).isSome

/-- The `parse_number` (ulong.rs): convert the digit run at the given radix,
reporting failures as a `ParseInt` error spanning the digit run. -/
def parse_number (input rest : List Char) (radix : Nat) : LexResult Nat :=
  match u64FromStrRadix input radix with
  | .ok res => .ok (res, rest)
  | .error err => .error (.ParseInt err radix, input)

/-- The `impl Lex for u64` (ulong.rs): try a `0x` prefix (hex), else a leading
`0` (octal), else decimal, where a leading `-` is skipped only to locate the
digit run and the span handed to `parse_number` still includes it. -/
def u64Lex (input : List Char) : LexResult Nat :=
  match expectLex input ['0', 'x'] with
  | .ok inp =>
    match lex_digits inp with
    | .ok (digits, rest) => parse_number digits rest 16
    | .error e => .error e
  | .error _ =>
    if input.head? = some '0' then
      match lex_digits input with
      | .ok (digits, rest) => parse_number digits rest 8
      | .error e => .error e
    else
      let without_neg :=
        match expectLex input ['-'] with
        | .ok inp => inp
        | .error _ => input
      match lex_digits without_neg with
      | .ok (_, rest) => parse_number (spanLex input rest) rest 10
      | .error e => .error e

/-- The `UlongRange` (ulong.rs): an inclusive range of unsigned 64-bit
integers. -/
structure UlongRange where
  first : Nat
  last : Nat
deriving DecidableEq, Repr

/-- The `From<u64> for UlongRange` (ulong.rs): the degenerate one-value range. -/
def UlongRange.fromU64 (i : Nat) : UlongRange := ⟨i, i⟩

/-- The `impl Lex for UlongRange` (ulong.rs): an integer, optionally followed by
`..` and a second integer; fails with `IncompatibleRangeBounds` spanning the
whole consumed text when the upper bound is below the lower. -/
def ulongRangeLex (input : List Char) : LexResult UlongRange :=
  match u64Lex input with
  | .error e => .error e
  | .ok (first, input1) =>
    match
      (match expectLex input1 ['.', '.'] with
       | .ok input2 => u64Lex input2
       | .error _ => Except.ok (first, input1)) with
    | .error e => .error e
    | .ok (last, input2) =>
      if last < first then .error (.IncompatibleRangeBounds, spanLex input input2)
      else .ok (⟨first, last⟩, input2)

/-! ## Renderings of `u64` values, used to state the lexer claims -/

/-- The character for digit value `d`: `0`–`9` then `a`–`f`. -/
def digitChar (d : Nat) : Char :=
  if d < 10 then Char.ofNat (48 + d) else Char.ofNat (87 + d)

/-- Big-endian digit characters of `n` in the given base (empty for 0). -/
def renderDigits (radix n : Nat) : List Char :=
  ((Nat.digits radix n).map digitChar).reverse

/-- Rendering of `n` in decimal. -/
def decRender (n : Nat) : List Char :=
  if n = 0 then ['0'] else renderDigits 10 n

/-- Rendering of `n` in hexadecimal with a `0x` prefix. -/
def hexRender (n : Nat) : List Char :=
  '0' :: 'x' :: (if n = 0 then ['0'] else renderDigits 16 n)

/-- Rendering of `n` in octal with a leading `0`. -/
def octRender (n : Nat) : List Char :=
  '0' :: (if n = 0 then ['0'] else renderDigits 8 n)

/-- Whether the remainder does not begin with a character the lexer's digit
run would consume (a radix-16 digit, `c.is_digit(16)`). -/
def noLeadingHexDigit (rest : List Char) : Bool :=
  match rest.head? with
  | some c => !(charToDigit c 16).isSome
  | none => true

/-! ## Characterisations and concrete instances used by the theorems -/

/-- Whether one expected-type candidate structurally matches a type: an
any-array candidate matches every array type, an any-map candidate every map
type, and a concrete candidate only on exact equality. -/
def matchesExpectedType (e : ExpectedType) (ty : Typ) : Bool :=
  match e, ty with
  | .Array, .Array _ => true
  | .Map, .Map _ => true
  | .Ty val_type, _ => decide (ty = val_type)
  | _, _ => false

/-- The distinct candidates of a list in insertion order. -/
def insertionDedup (l : List ExpectedType) : ExpectedTypeList :=
  l.foldl ExpectedTypeList.insert []

/-- A `SimpleFunctionDefinition` with no mandatory parameters and one
optional parameter defaulting to `10`. -/
def fnOneOptDefaultTen : SimpleFunctionDefinition :=
  ⟨[], [⟨.Literal, .Int 10⟩], .Int⟩

/-- A concrete `TryFrom<&RhsValue>` conversion targeting `u64`, for the
`expect_const_value` witness. -/
def convUlong : RhsValue → Except TypeMismatchError Nat := fun v =>
  match v with
  | .Ulong n => .ok n
  | _ => .error ⟨[.Ty .Ulong], v.get_type⟩

/-- A concrete validation closure accepting values up to 10, for the
`expect_const_value` witness. -/
def opAtMostTen : Nat → Except String Unit := fun n =>
  if n ≤ 10 then .ok () else .error "invalid number"

/-- Big-endian digit-list evaluation: the value accumulated by the digit
loop over a list of digit values. -/
def valFold (radix acc : Nat) (l : List Nat) : Nat :=
  l.foldl (fun a d => a * radix + d) acc

/-- A parser configuration with no custom matcher builder and a 1 MiB
compiled-size limit, as in `test_compiled_size_limit` (imp_real.rs). -/
def parserOneMiB : FilterParser :=
  ⟨none, 1048576, 2 * 1048576⟩

/-- A modelled compiled-size function under which the pattern
`.\x7b4079,65535\x7d` exceeds 1 MiB (its real compiled size under the regex
crate is an external fact; only `> 1048576` matters). -/
def bigPatternSize : String → Nat := fun s =>
  if s = ".\x7b4079,65535\x7d" then 2097153 else 1


/-- Decidable equality for `Except` results, used to evaluate the embedded
operations on concrete inputs. -/
instance {e a : Type} [DecidableEq e] [DecidableEq a] : DecidableEq (Except e a) := fun x y =>
  match x, y with
  | .error u, .error v =>
    if h : u = v then .isTrue (by rw [h]) else .isFalse (by intro hc; cases hc; exact h rfl)
  | .ok u, .ok v =>
    if h : u = v then .isTrue (by rw [h]) else .isFalse (by intro hc; cases hc; exact h rfl)
  | .error _, .ok _ => .isFalse (by intro hc; cases hc)
  | .ok _, .error _ => .isFalse (by intro hc; cases hc)

/-! ## Properties of the exact-size chain -/

theorem ExactSizeChain.next_chain_length {α : Type} {c c' : ExactSizeChain α} {x : α}
    (h : c.next = some (x, c')) : c'.chain.length < c.chain.length := by
  rcases c with ⟨chain, la, lb⟩
  cases chain with
  | nil => simp [ExactSizeChain.next] at h
  | cons e rest =>
    simp only [ExactSizeChain.next] at h
    split at h
    · cases h; simp
    · split at h
      · cases h; simp
      · cases h; simp

/-- Draining is exactly the repeated application of `next`. -/
theorem ExactSizeChain.drain_next {α : Type} (c : ExactSizeChain α) :
    c.drain = match c.next with
      | none => []
      | some (x, c') => x :: c'.drain := by
  rcases c with ⟨chain, la, lb⟩
  cases chain with
  | nil => rw [ExactSizeChain.drain]; rfl
  | cons e rest =>
    rw [ExactSizeChain.drain]
    by_cases hla : la > 0
    · simp [ExactSizeChain.next, hla]
    · by_cases hlb : lb > 0
      · simp [ExactSizeChain.next, hla, hlb]
      · simp [ExactSizeChain.next, hla, hlb]

theorem ExactSizeChain.drain_eq_chain {α : Type} (c : ExactSizeChain α) :
    c.drain = c.chain := by
  rcases c with ⟨chain, la, lb⟩
  induction chain generalizing la lb with
  | nil => rw [ExactSizeChain.drain]
  | cons e rest ih =>
    rw [ExactSizeChain.drain]
    by_cases hla : la > 0
    · simp [hla, ih]
    · by_cases hlb : lb > 0
      · simp [hla, hlb, ih]
      · simp [hla, hlb, ih]

/-- Drawing every element of `ExactSizeChain::new(a, b)` yields `a ++ b`. -/
theorem ExactSizeChain.drain_new {α : Type} (a b : List α) :
    (ExactSizeChain.new a b).drain = a ++ b :=
  ExactSizeChain.drain_eq_chain _

/-- The `ExactSizeChain::new(a, b).len()` is the sum of the two lengths. -/
theorem ExactSizeChain.len_new {α : Type} (a b : List α) :
    (ExactSizeChain.new a b).len = a.length + b.length :=
  rfl


/-! ## C10: context cloning preserves exclusive ownership -/

/-- C10: every context obtained from `FunctionDefinitionContext::new(t)` by a
finite number of `Clone` operations owns its reference-counted cell
exclusively (strong count 1), so `try_unwrap` succeeds and returns the
original value — the `unreachable!()` ownership-reclamation failure branch
cannot be reached through `new` and `clone` alone, because cloning copies the
inner value into a fresh cell instead of sharing the existing one. -/
theorem context_clone_try_unwrap {T : Type} (t : T) (c : FunctionDefinitionContext T)
    (h : ContextDerived t c) : c.strong = 1 ∧ c.try_unwrap = some t := by
  induction h with
  | new => exact ⟨rfl, rfl⟩
  | clone _ ih =>
    obtain ⟨h1, h2⟩ := ih
    simp [FunctionDefinitionContext.try_unwrap, h1] at h2
    exact ⟨rfl, by simp [FunctionDefinitionContext.clone,
      FunctionDefinitionContext.try_unwrap, h2]⟩

/-- Witness for C10 at `t = 42` after two clones. -/
theorem context_clone_try_unwrap_witness :
    ((FunctionDefinitionContext.new (42 : Nat)).clone.clone).strong = 1 ∧
    ((FunctionDefinitionContext.new (42 : Nat)).clone.clone).try_unwrap = some 42 :=
  context_clone_try_unwrap 42 _
    (ContextDerived.clone (ContextDerived.clone ContextDerived.new))

/-! ## C4: `expect_const_value` -/

/-- C4: `expect_const_value` on a `Variable` fails with a kind-mismatch
(expected `Literal`, actual `Field`) regardless of the conversion and the
closure; on a `Constant` a failing conversion yields its type-mismatch
error, a failing closure yields an invalid-constant error carrying the
closure's message, and the result is `Ok` exactly when the parameter is a
constant, conversion succeeds and the closure accepts. -/
theorem expect_const_value_contract {U : Type}
    (conv : RhsValue → Except TypeMismatchError U) (op : U → Except String Unit)
    (p : FunctionParam) :
    (∀ ty, p = .Variable ty →
      p.expect_const_value conv op = .error (.KindMismatch ⟨.Literal, .Field⟩)) ∧
    (∀ v e, p = .Constant v → conv v = .error e →
      p.expect_const_value conv op = .error (.TypeMismatch e)) ∧
    (∀ v u msg, p = .Constant v → conv v = .ok u → op u = .error msg →
      p.expect_const_value conv op = .error (.InvalidConstant ⟨msg⟩)) ∧
    (p.expect_const_value conv op = .ok () ↔
      ∃ v u, p = .Constant v ∧ conv v = .ok u ∧ op u = .ok ()) := by
  cases p with
  | Variable ty =>
    refine ⟨fun _ _ => rfl, ?_, ?_, ?_⟩
    · intro v e h; cases h
    · intro v u msg h; cases h
    · simp [FunctionParam.expect_const_value]
  | Constant v =>
    refine ⟨?_, ?_, ?_, ?_⟩
    · intro ty h; cases h
    · intro v' e hv hconv
      cases hv
      simp [FunctionParam.expect_const_value, hconv, Except.mapError, Except.bind]
    · intro v' u msg hv hconv hop
      cases hv
      simp [FunctionParam.expect_const_value, hconv, hop, Except.mapError, Except.bind]
    · cases hconv : conv v with
      | error e =>
        simp [FunctionParam.expect_const_value, hconv, Except.mapError, Except.bind]
      | ok u =>
        cases hop : op u with
        | error msg =>
          simp [FunctionParam.expect_const_value, hconv, hop, Except.mapError, Except.bind]
        | ok _ =>
          simp [FunctionParam.expect_const_value, hconv, hop, Except.mapError, Except.bind]

/-- Witness for C4: a constant `Ulong 5` converting to 5 and accepted by the
closure succeeds; a variable fails with the kind mismatch. -/
theorem expect_const_value_contract_witness :
    (FunctionParam.Constant (RhsValue.Ulong 5)).expect_const_value convUlong opAtMostTen
      = .ok () ∧
    (FunctionParam.Variable Typ.Bytes).expect_const_value convUlong opAtMostTen
      = .error (.KindMismatch ⟨.Literal, .Field⟩) :=
  ⟨(expect_const_value_contract convUlong opAtMostTen _).2.2.2.mpr
      ⟨RhsValue.Ulong 5, 5, rfl, rfl, rfl⟩,
    (expect_const_value_contract convUlong opAtMostTen _).1 Typ.Bytes rfl⟩

/-! ## C3: `expect_val_type` -/

/-- The loop of `expect_val_type` succeeds exactly when a candidate matches;
on exhaustion it reports every distinct candidate, appended in iteration
order to the already-accumulated list, plus the actual type. -/
theorem expectValTypeGo_eq (ty : Typ) (l : List ExpectedType) :
    ∀ types : ExpectedTypeList,
      expectValTypeGo ty types l =
        if l.any (fun e => matchesExpectedType e ty) then .ok ()
        else .error (.TypeMismatch ⟨l.foldl ExpectedTypeList.insert types, ty⟩) := by
  induction l with
  | nil => intro types; simp [expectValTypeGo]
  | cons e rest ih =>
    intro types
    cases e with
    | Array => cases ty <;> simp [expectValTypeGo, matchesExpectedType, ih]
    | Map => cases ty <;> simp [expectValTypeGo, matchesExpectedType, ih]
    | Ty v =>
      rcases eq_or_ne ty v with h | h
      · subst h
        cases ty <;> simp [expectValTypeGo, matchesExpectedType]
      · cases ty <;> simp [expectValTypeGo, matchesExpectedType, h, ih]

/-- C3: `expect_val_type` returns `Ok` exactly when some candidate matches
the parameter's type (an any-array candidate matches every array type, an
any-map candidate every map type, a concrete candidate only on exact
equality), trying candidates in order; when none matches it returns a
type-mismatch error listing every distinct candidate in insertion order
together with the parameter's actual type. -/
theorem expect_val_type_first_match (p : FunctionParam) (expected_types : List ExpectedType) :
    p.expect_val_type expected_types =
      if expected_types.any (fun e => matchesExpectedType e p.get_type) then .ok ()
      else .error (.TypeMismatch ⟨insertionDedup expected_types, p.get_type⟩) :=
  expectValTypeGo_eq p.get_type expected_types []

/-! ## C1 and C2: the compiled closure of a simple function definition -/

/-- Shared helper: the compiled closure of a `SimpleFunctionDefinition`
accepted with `k` explicit optional arguments passes to the raw function
pointer the explicit arguments followed by the defaults of the omitted
optional suffix. -/
theorem compiledCall_eq (f : SimpleFunctionDefinition) (k : Nat)
    (args : List CompiledValueResult) (hargs : args.length = f.params.length + k) :
    f.compiledCall (f.params.length + k) args =
      some (args ++ (f.opt_params.drop k).map fun opt_param =>
        .ok opt_param.default_value) := by
  have hcount : f.params.length + k = args.length := hargs.symm
  have hopt : f.compiledOptArgs (f.params.length + k) =
      (f.opt_params.drop k).map
        (fun opt_param => (Except.ok opt_param.default_value : CompiledValueResult)) := by
    unfold SimpleFunctionDefinition.compiledOptArgs
    congr 2
    omega
  unfold SimpleFunctionDefinition.compiledCall
  rw [hopt]
  by_cases hL : ((f.opt_params.drop k).map
      (fun opt_param => (Except.ok opt_param.default_value : CompiledValueResult))).isEmpty
  · rw [if_pos hL, if_pos hcount]
    rw [List.isEmpty_iff.mp hL, List.append_nil]
  · rw [if_neg hL, if_pos hcount, ExactSizeChain.drain_eq_chain]
    rfl

/-- C1: the closure returned by `compile` invokes the raw function pointer
on the explicit arguments followed, in declaration order, by the default
values of exactly the optional parameters omitted at the call site; in
particular (witness) a definition with no mandatory parameters and one
optional parameter defaulting to 10, compiled from zero accepted parameters
and invoked with zero explicit arguments, calls the pointer with exactly one
argument equal to 10. -/
theorem compile_splices_omitted_defaults (f : SimpleFunctionDefinition) (k : Nat)
    (args : List CompiledValueResult) (hk : k ≤ f.opt_params.length)
    (hargs : args.length = f.params.length + k) :
    f.compiledCall (f.params.length + k) args =
      some (args ++ (f.opt_params.drop k).map fun opt_param =>
        .ok opt_param.default_value) :=
  compiledCall_eq f k args hargs

/-- Witness for C1: the concrete one-optional-defaulting-to-10 scenario. -/
theorem compile_splices_omitted_defaults_witness :
    (0 : Nat) ≤ fnOneOptDefaultTen.opt_params.length ∧
    fnOneOptDefaultTen.compiledCall 0 [] = some [Except.ok (LhsValue.Int 10)] :=
  ⟨Nat.zero_le _, by
    have h := compile_splices_omitted_defaults fnOneOptDefaultTen 0 [] (Nat.zero_le _) rfl
    simpa [fnOneOptDefaultTen] using h⟩

/-- C2 counterexample: for the definition with zero mandatory parameters and
one optional parameter defaulting to 10, compiled from zero accepted
parameters and invoked with zero explicit arguments, the raw function
pointer observes one argument (the spliced-in default), not
mandatory-count + explicitly-supplied-optional-count = 0. -/
theorem pointer_arity_counterexample :
    fnOneOptDefaultTen.compiledCall 0 [] = some [Except.ok (LhsValue.Int 10)] ∧
    fnOneOptDefaultTen.params.length = 0 ∧
    ¬ (1 = fnOneOptDefaultTen.params.length + 0) := by
  refine ⟨?_, rfl, by decide⟩
  have h := compiledCall_eq fnOneOptDefaultTen 0 [] rfl
  simpa [fnOneOptDefaultTen] using h

/-- C2 (amended): at every invocation of the compiled closure on a legal
call site, the raw function pointer observes mandatory-count + *total*
optional-count arguments — the explicit arguments (mandatory-count +
explicitly-supplied-optional-count of them, enforced by the closure's arity
assertion) followed by the compiled-in defaults of the omitted suffix; it
equals mandatory-count + explicitly-supplied-optional-count only when all
optional arguments were given explicitly. -/
theorem pointer_observed_arity (f : SimpleFunctionDefinition) (k : Nat)
    (args : List CompiledValueResult) (hk : k ≤ f.opt_params.length)
    (hargs : args.length = f.params.length + k) :
    (f.compiledCall (f.params.length + k) args).map List.length =
      some (f.params.length + f.opt_params.length) := by
  rw [compiledCall_eq f k args hargs]
  simp [hargs]
  omega

/-- Witness for C2 (amended): zero mandatory, one optional supplied zero
explicit arguments — the pointer observes 0 + 1 = 1 argument. -/
theorem pointer_observed_arity_witness :
    (0 : Nat) ≤ fnOneOptDefaultTen.opt_params.length ∧
    (fnOneOptDefaultTen.compiledCall 0 []).map List.length = some 1 :=
  ⟨Nat.zero_le _, by
    have h := pointer_observed_arity fnOneOptDefaultTen 0 [] (Nat.zero_le _) rfl
    simpa [fnOneOptDefaultTen] using h⟩

/-! ## C6: compiled-size limit -/

/-- C6: with a compiled-size limit configured, `SimpleRegex::new` on a
pattern whose compiled representation exceeds that limit fails with a
compiled-too-big error carrying exactly the configured limit; and without a
registered custom matcher builder, `Regex::new` propagates that same
failure. -/
theorem simple_regex_compiled_too_big (compiledSize : String → Nat) (pattern : String)
    (format : RegexFormat) (parser : FilterParser)
    (h : parser.regex_compiled_size_limit < compiledSize pattern) :
    SimpleRegex.new compiledSize pattern format parser
      = .error (.CompiledTooBig parser.regex_compiled_size_limit) ∧
    (parser.gen_regex_builder = none →
      Regex.new compiledSize pattern format parser
        = .error (.SimpleRegexErr (.CompiledTooBig parser.regex_compiled_size_limit))) := by
  constructor
  · simp [SimpleRegex.new, regexBuilderBuild, h, Except.map]
  · intro hb
    simp [Regex.new, hb, SimpleRegex.new, regexBuilderBuild, h, Except.map, Except.mapError]

/-- Witness for C6: the 1 MiB limit and the pattern of
`test_compiled_size_limit`. -/
theorem simple_regex_compiled_too_big_witness :
    parserOneMiB.regex_compiled_size_limit < bigPatternSize ".\x7b4079,65535\x7d" ∧
    SimpleRegex.new bigPatternSize ".\x7b4079,65535\x7d" RegexFormat.Literal parserOneMiB
      = .error (.CompiledTooBig 1048576) :=
  ⟨by decide,
    (simple_regex_compiled_too_big bigPatternSize _ RegexFormat.Literal parserOneMiB
      (by decide)).1⟩

/-! ## C5: the regex interning pool -/

theorem updateAt_self (f : Nat → Nat) (i v : Nat) : updateAt f i v i = v := by
  simp [updateAt]

theorem updateAt_other (f : Nat → Nat) {i k : Nat} (v : Nat) (h : k ≠ i) :
    updateAt f i v k = f k := by
  simp [updateAt, h]

/-- A legal clone or drop targets a live object, which by the invariant is
the pool's entry with strong count at least 2. -/
theorem extRefs_target_live {s : PoolState} {i : Nat} (hInv : s.Inv)
    (h : 1 ≤ s.extRefs i) :
    s.pooled = some i ∧ 2 ≤ s.strong i ∧ i < s.count := by
  have hpos : 0 < s.strong i := by
    have := h
    unfold PoolState.extRefs at this
    omega
  exact hInv.1 i hpos

theorem decAt_self (f : Nat → Nat) (i : Nat) : decAt f i i = f i - 1 := by
  simp [decAt, updateAt]

theorem decAt_other (f : Nat → Nat) {i k : Nat} (h : k ≠ i) : decAt f i k = f k := by
  simp [decAt, updateAt, h]

/-- The invariant, unfolded on an explicit state. -/
theorem inv_mk (f : Nat → Nat) (c : Nat) (p : Option Nat) (comp : Nat) :
    PoolState.Inv ⟨f, c, p, comp⟩ ↔
      ((∀ i, 0 < f i → p = some i ∧ 2 ≤ f i ∧ i < c) ∧
        (∀ j, p = some j → j < c ∧ 2 ≤ f j)) :=
  Iff.rfl

/-- The `from_str` on an empty pool: compile, insert, return. -/
theorem step_fromStr_none {s : PoolState} (hp : s.pooled = none) :
    s.step .fromStr =
      ⟨updateAt s.strong s.count 2, s.count + 1, some s.count, s.compilations + 1⟩ := by
  simp [PoolState.step, hp]

/-- The `from_str` with the pattern pooled: clone the entry. -/
theorem step_fromStr_some {s : PoolState} {j : Nat} (hp : s.pooled = some j) :
    s.step .fromStr =
      ⟨updateAt s.strong j (s.strong j + 1), s.count, s.pooled, s.compilations⟩ := by
  simp [PoolState.step, hp]

/-- Cloning a handle bumps its strong count. -/
theorem step_clone (s : PoolState) (i : Nat) :
    s.step (.cloneHandle i) =
      ⟨updateAt s.strong i (s.strong i + 1), s.count, s.pooled, s.compilations⟩ :=
  rfl

/-- Dropping a handle whose strong count is exactly 2 takes the pool entry
out, drops it, then drops the handle's own reference. -/
theorem step_drop_two {s : PoolState} {i j : Nat} (h2 : s.strong i = 2)
    (hp : s.pooled = some j) :
    s.step (.dropHandle i) =
      ⟨decAt (decAt s.strong j) i, s.count, none, s.compilations⟩ := by
  simp [PoolState.step, h2, hp]

/-- Dropping a handle with any other strong count just decrements it. -/
theorem step_drop_other {s : PoolState} {i : Nat} (h2 : s.strong i ≠ 2) :
    s.step (.dropHandle i) =
      ⟨decAt s.strong i, s.count, s.pooled, s.compilations⟩ := by
  simp [PoolState.step, h2]

/-- One legal pool operation preserves the pool invariant. -/
theorem poolStep_inv {s : PoolState} {op : PoolOp} (hInv : s.Inv)
    (hop : s.validOp op = true) : (s.step op).Inv := by
  obtain ⟨hlive, hpool⟩ := hInv
  cases op with
  | fromStr =>
    cases hp : s.pooled with
    | none =>
      rw [step_fromStr_none hp, inv_mk]
      refine ⟨?_, ?_⟩
      · intro i hi
        by_cases hic : i = s.count
        · subst hic
          rw [updateAt_self]
          exact ⟨rfl, by omega, by omega⟩
        · rw [updateAt_other _ _ hic] at hi
          have h3 := (hlive i hi).1
          rw [hp] at h3
          cases h3
      · intro j hj
        cases hj
        rw [updateAt_self]
        exact ⟨by omega, by omega⟩
    | some j =>
      obtain ⟨hjc, hj2⟩ := hpool j hp
      rw [step_fromStr_some hp, inv_mk]
      refine ⟨?_, ?_⟩
      · intro i hi
        by_cases hij : i = j
        · subst hij
          rw [updateAt_self]
          exact ⟨hp, by omega, hjc⟩
        · rw [updateAt_other _ _ hij] at hi
          rw [updateAt_other _ _ hij]
          exact hlive i hi
      · intro j' hj'
        have hjj : j' = j := by
          rw [hp] at hj'
          exact (Option.some.inj hj').symm
        subst hjj
        rw [updateAt_self]
        exact ⟨hjc, by omega⟩
  | cloneHandle i =>
    have hval : 1 ≤ s.extRefs i := by
      simpa [PoolState.validOp] using hop
    obtain ⟨hpi, hi2, hic⟩ := extRefs_target_live ⟨hlive, hpool⟩ hval
    rw [step_clone, inv_mk]
    refine ⟨?_, ?_⟩
    · intro k hk
      by_cases hki : k = i
      · subst hki
        rw [updateAt_self]
        exact ⟨hpi, by omega, hic⟩
      · rw [updateAt_other _ _ hki] at hk
        rw [updateAt_other _ _ hki]
        exact hlive k hk
    · intro j hj
      have hji : j = i := by
        rw [hpi] at hj
        exact (Option.some.inj hj).symm
      subst hji
      rw [updateAt_self]
      exact ⟨hic, by omega⟩
  | dropHandle i =>
    have hval : 1 ≤ s.extRefs i := by
      simpa [PoolState.validOp] using hop
    obtain ⟨hpi, hi2, hic⟩ := extRefs_target_live ⟨hlive, hpool⟩ hval
    by_cases h2 : s.strong i = 2
    · rw [step_drop_two h2 hpi, inv_mk]
      refine ⟨?_, ?_⟩
      · intro k hk
        by_cases hki : k = i
        · subst hki
          rw [decAt_self, decAt_self, h2] at hk
          omega
        · rw [decAt_other _ hki, decAt_other _ hki] at hk
          have h3 := (hlive k hk).1
          rw [hpi] at h3
          exact absurd (Option.some.inj h3).symm hki
      · intro j hj
        cases hj
    · rw [step_drop_other h2, inv_mk]
      refine ⟨?_, ?_⟩
      · intro k hk
        by_cases hki : k = i
        · subst hki
          rw [decAt_self]
          rw [decAt_self] at hk
          exact ⟨hpi, by omega, hic⟩
        · rw [decAt_other _ hki] at hk
          rw [decAt_other _ hki]
          exact hlive k hk
      · intro j hj
        have hji : j = i := by
          rw [hpi] at hj
          exact (Option.some.inj hj).symm
        subst hji
        rw [decAt_self]
        exact ⟨hic, by omega⟩

/-- The initial pool state satisfies the invariant. -/
theorem poolInit_inv : PoolState.init.Inv := by
  constructor
  · intro i hi
    simp [PoolState.init] at hi
  · intro j hj
    simp [PoolState.init] at hj

/-- A legal trace preserves the pool invariant. -/
theorem poolRun_inv (ops : List PoolOp) :
    ∀ s : PoolState, s.Inv → s.validTrace ops = true → (s.run ops).Inv := by
  induction ops with
  | nil => intro s h _; exact h
  | cons op rest ih =>
    intro s h hval
    simp only [PoolState.validTrace, Bool.and_eq_true] at hval
    exact ih _ (poolStep_inv h hval.1) hval.2

/-- C5: for a fixed pattern string, along every legal sequence of
`from_str` / clone / drop operations from process start: the invariant
holds, so at most one live pooled compiled pattern exists at any time (any
two live objects coincide); `from_str` with the pattern present returns a
clone sharing the existing compiled object (strong + 1, no new object, no
second compilation); `from_str` with the pattern absent compiles exactly
once and inserts the new entry; and a legal drop removes the pool entry
exactly when the dropped handle's strong count is 2 (the pool's reference
plus this last external one, the weak count being identically 0 here),
deallocating the object. -/
theorem regex_pool_interning (ops : List PoolOp)
    (hval : PoolState.init.validTrace ops = true) :
    (PoolState.init.run ops).Inv ∧
    (∀ i k, 0 < (PoolState.init.run ops).strong i →
      0 < (PoolState.init.run ops).strong k → i = k) ∧
    (∀ j, (PoolState.init.run ops).pooled = some j →
      ((PoolState.init.run ops).step .fromStr).compilations
          = (PoolState.init.run ops).compilations ∧
      ((PoolState.init.run ops).step .fromStr).count = (PoolState.init.run ops).count ∧
      ((PoolState.init.run ops).step .fromStr).strong j
          = (PoolState.init.run ops).strong j + 1) ∧
    ((PoolState.init.run ops).pooled = none →
      ((PoolState.init.run ops).step .fromStr).compilations
          = (PoolState.init.run ops).compilations + 1 ∧
      ((PoolState.init.run ops).step .fromStr).pooled
          = some (PoolState.init.run ops).count ∧
      ((PoolState.init.run ops).step .fromStr).strong (PoolState.init.run ops).count = 2) ∧
    (∀ i, (PoolState.init.run ops).validOp (.dropHandle i) = true →
      (((PoolState.init.run ops).step (.dropHandle i)).pooled = none ↔
        (PoolState.init.run ops).strong i = 2) ∧
      ((PoolState.init.run ops).strong i = 2 →
        ((PoolState.init.run ops).step (.dropHandle i)).strong i = 0)) := by
  have hInv := poolRun_inv ops PoolState.init poolInit_inv hval
  obtain ⟨hlive, hpool⟩ := hInv
  set s := PoolState.init.run ops with hs
  refine ⟨⟨hlive, hpool⟩, ?_, ?_, ?_, ?_⟩
  · intro i k hi hk
    have h1 := (hlive i hi).1
    have h2 := (hlive k hk).1
    rw [h1] at h2
    exact Option.some.inj h2
  · intro j hj
    rw [step_fromStr_some hj]
    exact ⟨rfl, rfl, updateAt_self _ _ _⟩
  · intro hp
    rw [step_fromStr_none hp]
    exact ⟨rfl, rfl, updateAt_self _ _ _⟩
  · intro i hvi
    have hval1 : 1 ≤ s.extRefs i := by
      simpa [PoolState.validOp] using hvi
    obtain ⟨hpi, hi2, hic⟩ := extRefs_target_live ⟨hlive, hpool⟩ hval1
    by_cases h2 : s.strong i = 2
    · rw [step_drop_two h2 hpi]
      refine ⟨by simp [h2], fun _ => ?_⟩
      show decAt (decAt s.strong i) i i = 0
      rw [decAt_self, decAt_self, h2]
    · rw [step_drop_other h2]
      refine ⟨?_, fun h => absurd h h2⟩
      simp only [h2, iff_false]
      rw [hpi]
      simp

/-- Witness for C5: interning, cloning a handle, dropping both handles
(evicting the entry), then re-interning compiles exactly twice. -/
theorem regex_pool_interning_witness :
    PoolState.init.validTrace
      [PoolOp.fromStr, PoolOp.cloneHandle 0, PoolOp.dropHandle 0,
        PoolOp.dropHandle 0, PoolOp.fromStr] = true ∧
    (PoolState.init.run
      [PoolOp.fromStr, PoolOp.cloneHandle 0, PoolOp.dropHandle 0,
        PoolOp.dropHandle 0, PoolOp.fromStr]).Inv ∧
    (PoolState.init.run
      [PoolOp.fromStr, PoolOp.cloneHandle 0, PoolOp.dropHandle 0,
        PoolOp.dropHandle 0, PoolOp.fromStr]).compilations = 2 :=
  ⟨by decide,
    (regex_pool_interning _ (by decide)).1,
    by decide⟩

/-! ## Lexer helper lemmas -/

/-- The `to_digit` inverts `digitChar` on digit values below the radix. -/
theorem charToDigit_digitChar {d r : Nat} (hd : d < r) (hr : r ≤ 16) :
    charToDigit (digitChar d) r = some d := by
  have h : ∀ d, d < 16 → ∀ r, r < 17 → d < r → charToDigit (digitChar d) r = some d := by
    decide
  exact h d (by omega) r (by omega) hd

/-- Digit characters for values below 16 are radix-16 digits. -/
theorem digitChar_isDigit16 {d : Nat} (hd : d < 16) :
    (charToDigit (digitChar d) 16).isSome = true := by
  rw [charToDigit_digitChar hd le_rfl]
  rfl

/-- Digit characters are never `+`, `-`, `x` or, when nonzero, `0`. -/
theorem digitChar_not_special {d : Nat} (hd : d < 16) :
    digitChar d ≠ '+' ∧ digitChar d ≠ '-' ∧ digitChar d ≠ 'x' ∧
      (d ≠ 0 → digitChar d ≠ '0') := by
  have h : ∀ d, d < 16 → digitChar d ≠ '+' ∧ digitChar d ≠ '-' ∧ digitChar d ≠ 'x' ∧
      (d ≠ 0 → digitChar d ≠ '0') := by decide
  exact h d hd

theorem takeWhile_append_all {f : Char → Bool} (l r : List Char)
    (hl : ∀ c ∈ l, f c = true) (hr : ∀ c, r.head? = some c → f c = false) :
    (l ++ r).takeWhile f = l ∧ (l ++ r).dropWhile f = r := by
  induction l with
  | nil =>
    cases r with
    | nil => exact ⟨rfl, rfl⟩
    | cons c cs =>
      have hc := hr c rfl
      simp [List.takeWhile, List.dropWhile, hc]
  | cons a l ih =>
    have ha := hl a (by simp)
    have hrest := ih fun c hc => hl c (by simp [hc])
    simp [List.takeWhile, List.dropWhile, ha, hrest.1, hrest.2]

/-- The `expect` consumes an exact prefix. -/
theorem expectLex_append (s t : List Char) : expectLex (s ++ t) s = .ok t := by
  unfold expectLex
  rw [if_pos (List.isPrefixOf_iff_prefix.mpr (List.prefix_append s t)), List.drop_left]

/-- The `expect` fails when the first characters differ. -/
theorem expectLex_head_ne {c a : Char} (cs sr : List Char) (h : c ≠ a) :
    expectLex (c :: cs) (a :: sr) = .error (.ExpectedLiteral (a :: sr), c :: cs) := by
  unfold expectLex
  rw [if_neg]
  intro hpre
  have := List.isPrefixOf_iff_prefix.mp hpre
  obtain ⟨u, hu⟩ := this
  cases hu
  exact h rfl

/-- The `expect` fails on empty input with a nonempty literal. -/
theorem expectLex_nil (a : Char) (sr : List Char) :
    expectLex [] (a :: sr) = .error (.ExpectedLiteral (a :: sr), []) := by
  unfold expectLex
  rw [if_neg]
  intro hpre
  have := List.isPrefixOf_iff_prefix.mp hpre
  obtain ⟨u, hu⟩ := this
  cases hu

/-- The `expect "0x"` fails when the second character differs. -/
theorem expectLex_0x_second_ne {b : Char} (cs : List Char) (h : b ≠ 'x') :
    expectLex ('0' :: b :: cs) ['0', 'x']
      = .error (.ExpectedLiteral ['0', 'x'], '0' :: b :: cs) := by
  unfold expectLex
  rw [if_neg]
  intro hpre
  have := List.isPrefixOf_iff_prefix.mp hpre
  obtain ⟨u, hu⟩ := this
  cases hu
  exact h rfl

/-- The `expect "0x"` fails on the single character `0`. -/
theorem expectLex_0x_single :
    expectLex ['0'] ['0', 'x'] = .error (.ExpectedLiteral ['0', 'x'], ['0']) := by
  decide

theorem valFold_nil (r acc : Nat) : valFold r acc [] = acc := rfl

theorem valFold_cons (r acc d : Nat) (l : List Nat) :
    valFold r acc (d :: l) = valFold r (acc * r + d) l := rfl

theorem valFold_append (r acc : Nat) (l₁ l₂ : List Nat) :
    valFold r acc (l₁ ++ l₂) = valFold r (valFold r acc l₁) l₂ :=
  List.foldl_append _ _ _ _

/-- The accumulator never decreases along the digit loop. -/
theorem le_valFold {r : Nat} (hr : 1 ≤ r) (acc : Nat) (l : List Nat) :
    acc ≤ valFold r acc l := by
  induction l generalizing acc with
  | nil => exact le_rfl
  | cons d t ih =>
    rw [valFold_cons]
    calc acc ≤ acc * r + d := by nlinarith
      _ ≤ valFold r (acc * r + d) t := ih _

/-- Big-endian folding of a reversed little-endian digit list. -/
theorem valFold_reverse (r : Nat) (l : List Nat) (acc : Nat) :
    valFold r acc l.reverse = acc * r ^ l.length + Nat.ofDigits r l := by
  induction l generalizing acc with
  | nil => simp [valFold]
  | cons d t ih =>
    rw [List.reverse_cons, valFold_append, ih, Nat.ofDigits_cons]
    rw [valFold_cons, valFold_nil]
    simp only [List.length_cons, pow_succ]
    ring

/-- Folding the reversed digits of `n` recovers `n`. -/
theorem valFold_digits (r n : Nat) : valFold r 0 (Nat.digits r n).reverse = n := by
  rw [valFold_reverse]
  simp [Nat.ofDigits_digits]

/-- The digit loop accepts a digit list rendered by `digitChar` whose value
fits in 64 bits, and computes its value. -/
theorem parseDigitsPos_ok {r : Nat} (hr1 : 1 ≤ r) (hr16 : r ≤ 16) (l : List Nat)
    (acc : Nat) (hd : ∀ d ∈ l, d < r) (hbound : valFold r acc l < 2 ^ 64) :
    parseDigitsPos r acc (l.map digitChar) = .ok (valFold r acc l) := by
  induction l generalizing acc with
  | nil => rfl
  | cons d t ih =>
    have hdr : d < r := hd d (by simp)
    rw [List.map_cons]
    unfold parseDigitsPos
    rw [charToDigit_digitChar hdr hr16]
    dsimp only
    rw [valFold_cons] at hbound ⊢
    have hle : acc * r + d ≤ valFold r (acc * r + d) t := le_valFold hr1 _ _
    rw [if_pos (by omega)]
    exact ih _ (fun x hx => hd x (by simp [hx])) hbound

theorem renderDigits_eq (r n : Nat) :
    renderDigits r n = (Nat.digits r n).reverse.map digitChar := by
  unfold renderDigits
  rw [List.map_reverse]

/-- Every character of a rendering in base at most 16 is a radix-16 digit. -/
theorem renderDigits_all_digit16 {r : Nat} (hr2 : 2 ≤ r) (hr16 : r ≤ 16) (n : Nat) :
    ∀ c ∈ renderDigits r n, (charToDigit c 16).isSome = true := by
  intro c hc
  rw [renderDigits_eq] at hc
  obtain ⟨d, hd, rfl⟩ := List.mem_map.mp hc
  have hdr : d < r := Nat.digits_lt_base (by omega) (List.mem_reverse.mp hd)
  exact digitChar_isDigit16 (by omega)

/-- A nonzero value's rendering starts with a nonzero digit character. -/
theorem renderDigits_head {r n : Nat} (hr : 2 ≤ r) (hn : n ≠ 0) :
    ∃ d t, renderDigits r n = digitChar d :: t ∧ d ≠ 0 ∧ d < r := by
  have hne : Nat.digits r n ≠ [] := Nat.digits_ne_nil_iff_ne_zero.mpr hn
  rcases List.eq_nil_or_concat (Nat.digits r n) with h | ⟨L, b, h⟩
  · exact absurd h hne
  · rw [List.concat_eq_append] at h
    refine ⟨b, L.reverse.map digitChar, ?_, ?_, ?_⟩
    · rw [renderDigits_eq, h]
      simp
    · have hlast := Nat.getLast_digit_ne_zero r hn
      simp only [h, List.getLast_concat] at hlast
      exact hlast
    · exact Nat.digits_lt_base (by omega) (by rw [h]; simp)

theorem noLeadingHexDigit_spec {rest : List Char} (h : noLeadingHexDigit rest = true) :
    ∀ c, rest.head? = some c → (charToDigit c 16).isSome = false := by
  intro c hc
  unfold noLeadingHexDigit at h
  rw [hc] at h
  simpa using h

/-- The `lex_digits` on a nonempty digit run followed by a non-digit remainder
takes exactly the run. -/
theorem lex_digits_append (l rest : List Char) (hne : l ≠ [])
    (hl : ∀ c ∈ l, (charToDigit c 16).isSome = true)
    (hrest : noLeadingHexDigit rest = true) :
    lex_digits (l ++ rest) = .ok (l, rest) := by
  have hsplit := takeWhile_append_all l rest hl (noLeadingHexDigit_spec hrest)
  unfold lex_digits takeWhileLex
  rw [hsplit.1, hsplit.2]
  rw [if_neg (by simpa [List.isEmpty_iff] using hne)]

theorem spanLex_append (l rest : List Char) : spanLex (l ++ rest) rest = l := by
  unfold spanLex
  rw [List.length_append, Nat.add_sub_cancel, List.take_left]

theorem spanLex_nil (input : List Char) : spanLex input [] = input := by
  unfold spanLex
  rw [List.length_nil, Nat.sub_zero, List.take_length]

/-- The `from_str_radix` on input not starting with a sign goes straight to the
digit loop. -/
theorem u64FromStrRadix_not_sign {c : Char} (cs : List Char) (radix : Nat)
    (h1 : c ≠ '+') (h2 : c ≠ '-') :
    u64FromStrRadix (c :: cs) radix = parseDigitsPos radix 0 (c :: cs) := by
  unfold u64FromStrRadix
  dsimp only
  rw [if_neg (by rintro ⟨hor, _⟩; exact hor.elim h1 h2), if_neg h1]

/-- The `charToDigit` accepts `'0'` at any radix of at least 1. -/
theorem charToDigit_zero {r : Nat} (hr : 1 ≤ r) (hr16 : r ≤ 16) :
    charToDigit '0' r = some 0 := by
  have h := charToDigit_digitChar (d := 0) (r := r) (by omega) hr16
  simpa [digitChar] using h

/-- A leading `'0'` does not change the parsed value. -/
theorem parseDigitsPos_cons_zero {r : Nat} (hr : 1 ≤ r) (hr16 : r ≤ 16) (l : List Char) :
    parseDigitsPos r 0 ('0' :: l) = parseDigitsPos r 0 l := by
  show (match charToDigit '0' r with
    | none => (Except.error IntErrorKind.InvalidDigit : Except IntErrorKind Nat)
    | some d =>
      if 0 * r + d < 2 ^ 64 then parseDigitsPos r (0 * r + d) l
      else Except.error IntErrorKind.PosOverflow) = parseDigitsPos r 0 l
  rw [charToDigit_zero hr hr16]
  dsimp only
  rw [if_pos (by norm_num)]
  norm_num

/-- The `parse_number` at the rendering of a nonzero value recovers it. -/
theorem parse_number_renderDigits {r n : Nat} (hr2 : 2 ≤ r) (hr16 : r ≤ 16)
    (hn : n < 2 ^ 64) (h0 : n ≠ 0) (rest : List Char) :
    parse_number (renderDigits r n) rest r = .ok (n, rest) := by
  obtain ⟨d, t, hren, hd0, hdlt⟩ := renderDigits_head hr2 h0
  obtain ⟨hplus, hminus, _, _⟩ := digitChar_not_special (d := d) (by omega)
  unfold parse_number
  rw [hren, u64FromStrRadix_not_sign _ _ hplus hminus, ← hren, renderDigits_eq]
  rw [parseDigitsPos_ok (by omega) hr16 _ 0
    (fun x hx => Nat.digits_lt_base (by omega) (List.mem_reverse.mp hx))
    (by rw [valFold_digits]; exact hn)]
  rw [valFold_digits]

/-- The `parse_number` at an octal digit run with its leading `0`. -/
theorem parse_number_oct {n : Nat} (hn : n < 2 ^ 64) (rest : List Char) :
    parse_number ('0' :: (if n = 0 then ['0'] else renderDigits 8 n)) rest 8
      = .ok (n, rest) := by
  by_cases h0 : n = 0
  · subst h0
    rw [if_pos rfl]
    unfold parse_number
    rw [show u64FromStrRadix ['0', '0'] 8 = .ok 0 from by decide]
  · rw [if_neg h0]
    unfold parse_number
    have hne : ('0' : Char) ≠ '+' := by decide
    have hne2 : ('0' : Char) ≠ '-' := by decide
    rw [u64FromStrRadix_not_sign _ _ hne hne2]
    rw [parseDigitsPos_cons_zero (by omega) (by omega)]
    rw [renderDigits_eq]
    rw [parseDigitsPos_ok (by omega) (by omega) _ 0
      (fun x hx => Nat.digits_lt_base (by omega) (List.mem_reverse.mp hx))
      (by rw [valFold_digits]; exact hn)]
    rw [valFold_digits]

/-- Lexing the octal rendering of `n` followed by a non-digit remainder. -/
theorem u64Lex_oct {n : Nat} (hn : n < 2 ^ 64) (rest : List Char)
    (hrest : noLeadingHexDigit rest = true) :
    u64Lex (octRender n ++ rest) = .ok (n, rest) := by
  have hbody_ne : (if n = 0 then ['0'] else renderDigits 8 n) ≠ [] := by
    split
    · simp
    · next h0 =>
      obtain ⟨d, t, hren, _, _⟩ := renderDigits_head (r := 8) (n := n) (by omega) h0
      rw [hren]
      simp
  have hbody_dig : ∀ c ∈ (if n = 0 then ['0'] else renderDigits 8 n),
      (charToDigit c 16).isSome = true := by
    split
    · intro c hc
      simp at hc
      subst hc
      decide
    · exact renderDigits_all_digit16 (by omega) (by omega) n
  obtain ⟨b, bs, hbb⟩ : ∃ b bs, (if n = 0 then ['0'] else renderDigits 8 n) = b :: bs := by
    rcases h : (if n = 0 then ['0'] else renderDigits 8 n) with _ | ⟨b, bs⟩
    · exact absurd h hbody_ne
    · exact ⟨b, bs, rfl⟩
  have hbx : b ≠ 'x' := by
    intro hcontr
    have := hbody_dig b (by rw [hbb]; simp)
    rw [hcontr] at this
    simp [charToDigit] at this
  have hin : octRender n ++ rest = '0' :: b :: (bs ++ rest) := by
    rw [octRender, hbb]
    rfl
  rw [hin]
  unfold u64Lex
  rw [expectLex_0x_second_ne _ hbx]
  dsimp only
  rw [if_pos (show (('0' : Char) :: b :: (bs ++ rest)).head? = some '0' from rfl)]
  rw [show ('0' :: b :: (bs ++ rest)) = ('0' :: b :: bs) ++ rest from rfl]
  rw [lex_digits_append ('0' :: b :: bs) rest (by simp)
    (by
      intro c hc
      rcases List.mem_cons.mp hc with h | h
      · subst h; decide
      · exact hbody_dig c (by rw [hbb]; exact h)) hrest]
  dsimp only
  rw [show ('0' :: b :: bs) = '0' :: (if n = 0 then ['0'] else renderDigits 8 n) from by
    rw [hbb]]
  exact parse_number_oct hn rest

/-- Lexing the hexadecimal rendering of `n` followed by a non-digit
remainder. -/
theorem u64Lex_hex {n : Nat} (hn : n < 2 ^ 64) (rest : List Char)
    (hrest : noLeadingHexDigit rest = true) :
    u64Lex (hexRender n ++ rest) = .ok (n, rest) := by
  have hbody_ne : (if n = 0 then ['0'] else renderDigits 16 n) ≠ [] := by
    split
    · simp
    · next h0 =>
      obtain ⟨d, t, hren, _, _⟩ := renderDigits_head (r := 16) (n := n) (by omega) h0
      rw [hren]
      simp
  have hbody_dig : ∀ c ∈ (if n = 0 then ['0'] else renderDigits 16 n),
      (charToDigit c 16).isSome = true := by
    split
    · intro c hc
      simp at hc
      subst hc
      decide
    · exact renderDigits_all_digit16 (by omega) le_rfl n
  rw [show hexRender n ++ rest
      = ['0', 'x'] ++ ((if n = 0 then ['0'] else renderDigits 16 n) ++ rest) from by
    rw [hexRender]
    rfl]
  unfold u64Lex
  rw [expectLex_append]
  dsimp only
  rw [lex_digits_append _ rest hbody_ne hbody_dig hrest]
  dsimp only
  by_cases h0 : n = 0
  · subst h0
    rw [if_pos rfl]
    unfold parse_number
    rw [show u64FromStrRadix ['0'] 16 = .ok 0 from by decide]
  · rw [if_neg h0]
    exact parse_number_renderDigits (by omega) le_rfl hn h0 rest

/-- Lexing the decimal rendering of `n` followed by a non-digit remainder
(which, when `n = 0`, must also not start with `x`). -/
theorem u64Lex_dec {n : Nat} (hn : n < 2 ^ 64) (rest : List Char)
    (hrest : noLeadingHexDigit rest = true)
    (hx : ¬(n = 0 ∧ rest.head? = some 'x')) :
    u64Lex (decRender n ++ rest) = .ok (n, rest) := by
  by_cases h0 : n = 0
  · subst h0
    have hx0 : rest.head? ≠ some 'x' := fun h => hx ⟨rfl, h⟩
    rw [show decRender 0 ++ rest = '0' :: rest from rfl]
    unfold u64Lex
    have hexp : expectLex ('0' :: rest) ['0', 'x']
        = .error (.ExpectedLiteral ['0', 'x'], '0' :: rest) := by
      cases rest with
      | nil => exact expectLex_0x_single
      | cons c cs =>
        exact expectLex_0x_second_ne cs (fun hcx => hx0 (by subst hcx; rfl))
    rw [hexp]
    dsimp only
    rw [if_pos (show (('0' : Char) :: rest).head? = some '0' from rfl)]
    rw [show ('0' : Char) :: rest = ['0'] ++ rest from rfl]
    rw [lex_digits_append ['0'] rest (by simp)
      (by intro c hc; simp at hc; subst hc; decide) hrest]
    dsimp only
    unfold parse_number
    rw [show u64FromStrRadix ['0'] 8 = .ok 0 from by decide]
  · rw [decRender, if_neg h0]
    obtain ⟨d, t, hren, hd0, hdlt⟩ := renderDigits_head (r := 10) (n := n) (by omega) h0
    obtain ⟨hplus, hminus, hxx, hzero⟩ := digitChar_not_special (d := d) (by omega)
    have hz := hzero hd0
    unfold u64Lex
    rw [hren, List.cons_append]
    rw [expectLex_head_ne _ _ hz]
    dsimp only
    rw [if_neg (by simp [hz])]
    rw [expectLex_head_ne _ _ hminus]
    dsimp only
    rw [← List.cons_append, ← hren]
    rw [lex_digits_append _ _ (by rw [hren]; simp)
      (renderDigits_all_digit16 (by omega) (by omega) n) hrest]
    dsimp only
    rw [spanLex_append]
    exact parse_number_renderDigits (by omega) (by omega) hn h0 rest

/-! ## C7: `u64` lexing round-trips -/

/-- C7 counterexample: `n = 0` rendered in decimal (`"0"`) followed by the
non-digit remainder `"x"` does not lex back to `0` with remainder `"x"`:
the input `"0x"` takes the hexadecimal path and fails for lack of digits. -/
theorem u64_lex_roundtrip_counterexample :
    decRender 0 ++ ['x'] = ['0', 'x'] ∧
    noLeadingHexDigit ['x'] = true ∧
    u64Lex (decRender 0 ++ ['x']) = .error (.ExpectedName "digit", []) := by
  refine ⟨by decide, by decide, ?_⟩
  decide

/-- C7 (amended): for every `n < 2^64` and every remainder that does not
begin with a radix-16 digit — nor, in the single case `n = 0`, with the
character `x` — lexing the decimal, `0x`-hexadecimal, or `0`-octal rendering
of `n` followed by that remainder yields exactly `n` with the remainder
unconsumed; lexing `"10fex"` fails with a radix-10 parse-int error whose
span is `"10fe"`, and lexing `"0xffffffffffffffff!"` yields
`0xffffffffffffffff` with remainder `"!"`. -/
theorem u64_lex_roundtrip (n : Nat) (rest : List Char) (hn : n < 2 ^ 64)
    (hrest : noLeadingHexDigit rest = true)
    (hx : ¬(n = 0 ∧ rest.head? = some 'x')) :
    u64Lex (decRender n ++ rest) = .ok (n, rest) ∧
    u64Lex (hexRender n ++ rest) = .ok (n, rest) ∧
    u64Lex (octRender n ++ rest) = .ok (n, rest) ∧
    u64Lex "10fex".toList = .error (.ParseInt .InvalidDigit 10, "10fe".toList) ∧
    u64Lex "0xffffffffffffffff!".toList = .ok (18446744073709551615, "!".toList) :=
  ⟨u64Lex_dec hn rest hrest hx, u64Lex_hex hn rest hrest, u64Lex_oct hn rest hrest,
    by decide, by decide⟩

/-- Witness for C7 at `n = 83`, remainder `";"`. -/
theorem u64_lex_roundtrip_witness :
    (83 : Nat) < 2 ^ 64 ∧ noLeadingHexDigit [';'] = true ∧
    decRender 83 = ['8', '3'] ∧ octRender 83 = ['0', '1', '2', '3'] ∧
    u64Lex (decRender 83 ++ [';']) = .ok (83, [';']) ∧
    u64Lex (octRender 83 ++ [';']) = .ok (83, [';']) :=
  ⟨by decide, by decide,
    by simp [decRender, renderDigits, Nat.digits_def']; decide,
    by simp [octRender, renderDigits, Nat.digits_def']; decide,
    (u64_lex_roundtrip 83 [';'] (by decide) (by decide) (by decide)).1,
    (u64_lex_roundtrip 83 [';'] (by decide) (by decide) (by decide)).2.2.1⟩

/-! ## C8: `UlongRange` lexing -/

/-- C8: for decimally rendered `a` and `b`, `"a..b"` lexes to the inclusive
range `a..=b` when `a ≤ b` (equal bounds giving the legal degenerate range),
fails with an incompatible-range-bounds error spanning the whole consumed
text when `a > b`, and a lone integer with no `..` collapses to the
degenerate range of itself. -/
theorem ulong_range_lex (a b : Nat) (ha : a < 2 ^ 64) (hb : b < 2 ^ 64) :
    (a ≤ b → ulongRangeLex (decRender a ++ '.' :: '.' :: decRender b)
      = .ok (⟨a, b⟩, [])) ∧
    (b < a → ulongRangeLex (decRender a ++ '.' :: '.' :: decRender b)
      = .error (.IncompatibleRangeBounds, decRender a ++ '.' :: '.' :: decRender b)) ∧
    ulongRangeLex (decRender a) = .ok (⟨a, a⟩, []) := by
  have hfirst : u64Lex (decRender a ++ '.' :: '.' :: decRender b)
      = .ok (a, '.' :: '.' :: decRender b) :=
    u64Lex_dec ha _ rfl (by simp)
  have hdots : expectLex ('.' :: '.' :: decRender b) ['.', '.'] = .ok (decRender b) :=
    expectLex_append ['.', '.'] (decRender b)
  have hsecond : u64Lex (decRender b) = .ok (b, []) := by
    have h := u64Lex_dec hb [] rfl (by simp)
    rwa [List.append_nil] at h
  have halone : u64Lex (decRender a) = .ok (a, []) := by
    have h := u64Lex_dec ha [] rfl (by simp)
    rwa [List.append_nil] at h
  refine ⟨?_, ?_, ?_⟩
  · intro hab
    unfold ulongRangeLex
    rw [hfirst]
    dsimp only
    rw [hdots]
    dsimp only
    rw [hsecond]
    dsimp only
    rw [if_neg (by omega)]
  · intro hba
    unfold ulongRangeLex
    rw [hfirst]
    dsimp only
    rw [hdots]
    dsimp only
    rw [hsecond]
    dsimp only
    rw [if_pos hba, spanLex_nil]
  · unfold ulongRangeLex
    rw [halone]
    dsimp only
    rcases hd : decRender a with _ | ⟨c, cs⟩
    · exfalso
      unfold decRender at hd
      split at hd
      · cases hd
      · next h0 =>
        obtain ⟨d, t, hren, _, _⟩ := renderDigits_head (r := 10) (n := a) (by omega) h0
        rw [hren] at hd
        cases hd
    · rw [expectLex_nil]
      dsimp only
      rw [if_neg (by omega)]

/-- Witness for C8: `"0..10"` lexes to `0..=10`, `"10..0"` fails with
`IncompatibleRangeBounds` spanning the whole input. -/
theorem ulong_range_lex_witness :
    (0 : Nat) < 2 ^ 64 ∧ (10 : Nat) < 2 ^ 64 ∧
    ulongRangeLex (decRender 0 ++ '.' :: '.' :: decRender 10) = .ok (⟨0, 10⟩, []) ∧
    ulongRangeLex (decRender 10 ++ '.' :: '.' :: decRender 0)
      = .error (.IncompatibleRangeBounds, decRender 10 ++ '.' :: '.' :: decRender 0) ∧
    decRender 10 = ['1', '0'] :=
  ⟨by decide, by decide,
    (ulong_range_lex 0 10 (by decide) (by decide)).1 (by decide),
    (ulong_range_lex 10 0 (by decide) (by decide)).2.1 (by decide),
    by simp [decRender, renderDigits, Nat.digits_def']; decide⟩

/-! ## C9: negative literals -/

/-- C9: an input beginning with `-` followed by a nonempty digit run is
routed into the decimal path: the sign and the digit run are consumed, and
lexing fails with a radix-10 parse-int error whose span includes the leading
`-` and the digit run (the unsigned integer parser treats `-` as an invalid
digit rather than a sign); in particular `"-12-"` fails with a radix-10
parse-int error spanning `"-12"`. -/
theorem u64_lex_negative (ds rest : List Char) (hne : ds ≠ [])
    (hds : ∀ c ∈ ds, (charToDigit c 16).isSome = true)
    (hrest : noLeadingHexDigit rest = true) :
    u64Lex ('-' :: (ds ++ rest)) = .error (.ParseInt .InvalidDigit 10, '-' :: ds) ∧
    u64Lex "-12-".toList = .error (.ParseInt .InvalidDigit 10, "-12".toList) := by
  refine ⟨?_, by decide⟩
  unfold u64Lex
  rw [expectLex_head_ne _ _ (by decide : ('-' : Char) ≠ '0')]
  dsimp only
  rw [if_neg (by simp)]
  rw [show ('-' :: (ds ++ rest)) = ['-'] ++ (ds ++ rest) from rfl, expectLex_append]
  dsimp only
  rw [lex_digits_append ds rest hne hds hrest]
  dsimp only
  have hspan : spanLex (['-'] ++ (ds ++ rest)) rest = '-' :: ds := by
    unfold spanLex
    simp only [List.length_append, List.length_cons, List.length_nil]
    rw [show 0 + 1 + (ds.length + rest.length) - rest.length = ds.length + 1 from by omega]
    rw [show (['-'] ++ (ds ++ rest)) = '-' :: (ds ++ rest) from rfl]
    rw [List.take_succ_cons, List.take_left]
  rw [hspan]
  unfold parse_number
  have hparse : u64FromStrRadix ('-' :: ds) 10 = .error .InvalidDigit := by
    unfold u64FromStrRadix
    dsimp only
    rw [if_neg (by rintro ⟨_, h⟩; exact hne h), if_neg (by decide)]
    rcases ds with _ | ⟨c, cs⟩
    · exact absurd rfl hne
    · unfold parseDigitsPos
      rw [show charToDigit '-' 10 = none from by decide]
  rw [hparse]

/-- Witness for C9 at input `"-12-"` (digit run `"12"`, remainder `"-"`). -/
theorem u64_lex_negative_witness :
    (['1', '2'] : List Char) ≠ [] ∧
    noLeadingHexDigit ['-'] = true ∧
    u64Lex ('-' :: (['1', '2'] ++ ['-'])) = .error (.ParseInt .InvalidDigit 10, ['-', '1', '2']) :=
  ⟨by decide, by decide,
    (u64_lex_negative ['1', '2'] ['-'] (by decide) (by decide) (by decide)).1⟩
